import Mathlib

set_option maxHeartbeats 1000000

/-!
Shallow embedding of the synchronization core of `src/storage/StorageManager.ts`
(a client-side cache manager keeping IndexedDB in sync with an S3 object store),
together with proofs settling the specification claims about it.

Conventions used throughout:
* timestamps are `Nat` (JS `Date.now()` milliseconds);
* the JS `Map<string, IndexedDBPrivateData>` is an association list with
  `Map.get` / `Map.set` / `Map.delete` semantics (`mapGet` / `mapSet` / `mapDelete`);
* JS truthiness on a typed number field: `x || 0` is the identity on `Nat`
  (`0 || 0 === 0`), and `b || false` is the identity on `Bool`, so the
  defensive normalizations in `mergeData` are identities in the typed model;
* fallible asynchronous calls are `Except String` valued oracles packaged in an
  environment structure, so that theorems quantify over every possible outcome
  of the store and of the network.
-/

namespace Storage

/-- The record envelope `IndexedDBPrivateData<PrivateData>` of
`src/storage/types.ts`: key, owner id (`userId`), parent id (`learnerId`),
bookkeeping timestamps, opaque payload (`data`, possibly `undefined`, hence
`Option`), dataset name (`dataType`) and the tombstone flag (`deleted`). -/
structure PrivRecord where
  key : String
  userId : String
  learnerId : String
  lastRead : Nat
  lastModified : Nat
  createdAt : Nat
  data : Option String
  dataType : String
  deleted : Bool
deriving DecidableEq, Repr

/-- A JS `Map<string, PrivRecord>` as an insertion-ordered association list. -/
abbrev JsMap := List (String × PrivRecord)

/-- JS `Map.get`: the value at the first (and, for maps built through
`mapSet`, only) occurrence of the key. -/
def mapGet : JsMap → String → Option PrivRecord
  | [], _ => none
  | kv :: rest, k => if kv.1 == k then some kv.2 else mapGet rest k

/-- JS `Map.set`: replace the entry in place when the key is present, append
otherwise. -/
def mapSet : JsMap → String → PrivRecord → JsMap
  | [], k, v => [(k, v)]
  | kv :: rest, k, v => if kv.1 == k then (k, v) :: rest else kv :: mapSet rest k v

/-- JS `Map.delete`: remove the entry of the key when present. -/
def mapDelete : JsMap → String → JsMap
  | [], _ => []
  | kv :: rest, k => if kv.1 == k then rest else kv :: mapDelete rest k

/-- A map has unique keys; every JS `Map` satisfies this, and `mapSet` /
`mapDelete` preserve it. -/
def uniqKeys (m : JsMap) : Prop := (m.map Prod.fst).Nodup

/-- The body of one iteration of the first loop of `mergeData`
(`StorageManager.ts` lines 2343-2373), acting on the merged map: resolve one
local record against the remote (`s3DataMap`) snapshot.  When both sides hold
the key, the strictly greater `lastModified` wins and the `else` branch of
line 2355 takes the local side on ties; the winning side's tombstone decides
between `Map.delete` and `Map.set`.  The `lastModified || 0` and
`deleted || false` normalizations of the source are identities on the typed
fields and are therefore not repeated here. -/
def mergeLocalResolve (s3DataMap : JsMap) (m : JsMap) (k : String)
    (localItem : PrivRecord) : JsMap :=
  match mapGet s3DataMap k with
  | some s3Item =>
    if s3Item.lastModified > localItem.lastModified then
      if s3Item.deleted then mapDelete m k
      else mapSet m k s3Item
    else
      if localItem.deleted then mapDelete m k
      else mapSet m k localItem
  | none =>
    if localItem.deleted then mapDelete m k
    else mapSet m k localItem

/-- One iteration of the first loop of `mergeData`
(`StorageManager.ts` lines 2332-2374) on the state
`(resolvedDataSet, mergedData)`: skip already-resolved keys, otherwise mark
the key resolved and apply `mergeLocalResolve`. -/
def mergeLocalStep (s3DataMap : JsMap) (st : List String × JsMap)
    (kv : String × PrivRecord) : List String × JsMap :=
  if st.1.contains kv.1 then st
  else (kv.1 :: st.1, mergeLocalResolve s3DataMap st.2 kv.1 kv.2)

/-- The body of one iteration of the second loop of `mergeData`
(`StorageManager.ts` lines 2381-2387): keep a remote-only record unless it is
tombstoned. -/
def mergeS3Resolve (m : JsMap) (k : String) (s3Item : PrivRecord) : JsMap :=
  if s3Item.deleted then mapDelete m k
  else mapSet m k s3Item

/-- One iteration of the second loop of `mergeData`
(`StorageManager.ts` lines 2376-2388), skipping keys already resolved by the
local loop. -/
def mergeS3Step (st : List String × JsMap) (kv : String × PrivRecord) :
    List String × JsMap :=
  if st.1.contains kv.1 then st
  else (kv.1 :: st.1, mergeS3Resolve st.2 kv.1 kv.2)

/-- The merge engine `mergeData(s3DataMap, localDataMap)`
(`StorageManager.ts` lines 2320-2390): seed the result with every remote
record, resolve every local record against its remote counterpart by
`lastModified` (the strictly greater timestamp wins, the `else` branch of
line 2347 taking the local side on ties), then keep remote-only records,
dropping tombstones from the merged map. -/
def mergeData (s3DataMap localDataMap : JsMap) : JsMap :=
  let mergedData := s3DataMap.foldl (fun m kv => mapSet m kv.1 kv.2) []
  let st1 := localDataMap.foldl (mergeLocalStep s3DataMap) ([], mergedData)
  let st2 := s3DataMap.foldl mergeS3Step st1
  st2.2

/-! Key derivation (`StorageManager.ts` lines 1075-1094).  The claims only
concern string inputs, for which `getInputId` returns the substring after the
last slash (`input.split("/").pop() || ""`). -/

/-- JS `input.split("/")` on the character list of the string: the list of
slash-separated chunks; never empty. -/
def splitOnSlash : List Char → List (List Char)
  | [] => [[]]
  | c :: cs =>
    let r := splitOnSlash cs
    if c = '/' then [] :: r
    else
      match r with
      | [] => [[c]]
      | g :: gs => (c :: g) :: gs

/-- `getInputId` on a string input: `input.split("/").pop() || ""`
(`StorageManager.ts` lines 1088-1094; the non-string branch hashes the input
and is outside the string-input claims). -/
def getInputId (input : String) : String :=
  String.mk ((splitOnSlash input.data).getLastD [])

/-- The key built by `getPrivateKey` once the user id is known to be set:
`s3PrivatePre ++ "/" ++ userIdHash ++ "/" ++ getInputId input`
(`StorageManager.ts` line 1081; `s3PrivatePre` stands for the private path
prefix field of the manager). -/
def getPrivateKeyCore (s3PrivatePre userIdHash : String) (input : String) : String :=
  s3PrivatePre ++ "/" ++ userIdHash ++ "/" ++ getInputId input

/-- `getPrivateKey` (`StorageManager.ts` lines 1075-1082): raises when the
user id is null or empty (modelled as `none`), otherwise derives the private
key from the hash of the user id.  The SHA-256 hash is an opaque parameter. -/
def getPrivateKey (userId : String) (sha256hex : String → String)
    (s3PrivatePre : String) (input : String) : Option String :=
  if userId = "" then none
  else some (getPrivateKeyCore s3PrivatePre (sha256hex userId) input)

/-- The per-key outcome of the conflict resolution of `mergeData` for a key
held by the local map: the side with the strictly greater `lastModified`
wins (local wins ties), and a tombstoned winner means the key is absent from
the merged map.  This is the specification-level reading of
`mergeLocalResolve`, used to state the merge characterization theorem. -/
def mergeDecide (s3DataMap : JsMap) (k : String) (localItem : PrivRecord) :
    Option PrivRecord :=
  match mapGet s3DataMap k with
  | some s3Item =>
    if s3Item.lastModified > localItem.lastModified then
      if s3Item.deleted then none else some s3Item
    else
      if localItem.deleted then none else some localItem
  | none =>
    if localItem.deleted then none else some localItem

/-! Local store models.  The IndexedDB private object store is a list of
records keyed by `PrivRecord.key`; the store-level reads and deletes of
`StorageManager.ts` are modelled record-for-record. -/

/-- `readPrivateIndexedDBData` (`StorageManager.ts` lines 1170-1186): primary
key lookup in the private object store. -/
def readPrivateIndexedDBData (store : List PrivRecord) (key : String) :
    Option PrivRecord :=
  store.find? (fun (r : PrivRecord) => r.key == key)

/-- `readPrivateDataByKey` (`StorageManager.ts` lines 690-708): derive the
private key from the input key, look the record up, and return its payload
whenever the record exists and its `data` field is not `undefined` — the
`deleted` flag is never consulted.  (The `lastRead` refresh and the disabled
short-circuit are orthogonal to the payload returned; the user id is assumed
set, as the callers establish.) -/
def readPrivateDataByKey (usePrivateData : Bool) (s3PrivatePre userIdHash : String)
    (store : List PrivRecord) (key : String) : Option String :=
  if !usePrivateData then none
  else
    match readPrivateIndexedDBData store (getPrivateKeyCore s3PrivatePre userIdHash key) with
    | some indexedDBData =>
      if indexedDBData.data.isSome then indexedDBData.data else none
    | none => none

/-- `getAllPrivateIndexedDBDataGeneric` (`StorageManager.ts` lines 1530-1555):
all records of the private store matching the data-type filter (`none` means
every data type) and belonging to the current user. -/
def getAllPrivateIndexedDBDataGeneric (store : List PrivRecord) (userId : String)
    (dataTypeFilter : Option String) : List PrivRecord :=
  let base : List PrivRecord :=
    match dataTypeFilter with
    | some dt => store.filter (fun r => r.dataType == dt)
    | none => store
  base.filter (fun r => r.userId == userId)

/-- `getAllPrivateIndexedDBData` (`StorageManager.ts` lines 1560-1567): the
generic helper applied to the manager's own data type. -/
def getAllPrivateIndexedDBData (store : List PrivRecord) (userId dataType : String) :
    List PrivRecord :=
  getAllPrivateIndexedDBDataGeneric store userId (some dataType)

/-- `PATHS.LEARNER.DATA_TYPE` (`src/storage/path.ts`). -/
def LEARNER_DATA_TYPE : String := "learner"

/-- `getAllPrivateLearnerIndexedDBData` (`StorageManager.ts` lines 1572-1578):
the generic helper applied to the learner data type. -/
def getAllPrivateLearnerIndexedDBData (store : List PrivRecord) (userId : String) :
    List PrivRecord :=
  getAllPrivateIndexedDBDataGeneric store userId (some LEARNER_DATA_TYPE)

/-- `getAllPrivateData` (`StorageManager.ts` lines 898-915): the payloads of
all of the current user's records of this data type, filtering out only
`undefined` payloads — the `deleted` flag is never consulted. -/
def getAllPrivateData (usePrivateData : Bool) (store : List PrivRecord)
    (userId dataType : String) : List String :=
  if !usePrivateData then []
  else ((getAllPrivateIndexedDBData store userId dataType).map (fun r => r.data)).filterMap id

/-- `deletePrivateDataByKeyDirect` (`StorageManager.ts` lines 2814-2842):
`store.delete(key)` on the private object store — a physical removal of the
record with that primary key.  (The counter write and debounce trigger of the
success callback are orthogonal to the store contents.) -/
def deletePrivateDataByKeyDirect (store : List PrivRecord) (key : String) :
    List PrivRecord :=
  store.filter (fun r => !(r.key == key))

/-- `deletePrivateIndexedDBDataByKey` (`StorageManager.ts` lines 1676-1686):
re-derive the private key and delete the record physically. -/
def deletePrivateIndexedDBDataByKey (usePrivateData : Bool)
    (s3PrivatePre userIdHash : String) (store : List PrivRecord) (key : String) :
    List PrivRecord :=
  if !usePrivateData then store
  else deletePrivateDataByKeyDirect store (getPrivateKeyCore s3PrivatePre userIdHash key)

/-- The private-store path of `deleteDataById` (`StorageManager.ts` lines
1032-1055): derive the private key from the raw key and delegate to
`deletePrivateIndexedDBDataByKey` (the public-store branch touches the public
object store only and is outside the private-record claims). -/
def deleteDataById (usePrivateData : Bool) (s3PrivatePre userIdHash : String)
    (store : List PrivRecord) (key : String) : List PrivRecord :=
  if usePrivateData then
    deletePrivateIndexedDBDataByKey usePrivateData s3PrivatePre userIdHash store
      (getPrivateKeyCore s3PrivatePre userIdHash key)
  else store

/-- `clearOrphanedData` (`StorageManager.ts` lines 2740-2807): collect the
valid learner ids from the learner dataset, fetch the current user's records
through `getAllPrivateIndexedDBData` — which filters on the manager's own
`dataType`, despite the in-source comment announcing all data types — mark as
orphaned every fetched non-learner record whose `learnerId` is non-empty and
not in the valid set, and delete the orphaned records physically. -/
def clearOrphanedData (store : List PrivRecord) (userId dataType : String) :
    List PrivRecord :=
  let learnerData := getAllPrivateLearnerIndexedDBData store userId
  let validLearnerIds := learnerData.map (fun item => getInputId item.key)
  let allPrivateData := getAllPrivateIndexedDBData store userId dataType
  let orphanedItems := allPrivateData.filter (fun item =>
    !(item.dataType == LEARNER_DATA_TYPE) && !(item.learnerId == "") &&
      !(validLearnerIds.contains item.learnerId))
  store.filter (fun r => !((orphanedItems.map (fun item => item.key)).contains r.key))

/-! The sync procedure (`StorageManager.ts` lines 2087-2229) and its
satellites.  Asynchronous collaborators are oracles packaged in `SyncEnv`:
an `Except` value per fallible call, so theorems quantify over every outcome
of the store and the network. -/

/-- The `action` field of the structured sync-family results. -/
inductive SyncAction where
  | uploaded
  | downloaded
  | noActionNeeded
deriving DecidableEq, Repr

/-- The structured result every sync-family operation resolves with. -/
structure SyncResult where
  storeName : String
  success : Bool
  action : SyncAction
  details : String
  errMsg : Option String
deriving DecidableEq, Repr

/-- Outcome of `downloadPrivateDataFromS3`: success, a `NoSuchKey` error
(no remote snapshot yet), or any other failure. -/
inductive DownloadOutcome where
  | ok
  | noSuchKey (msg : String)
  | failed (msg : String)
deriving DecidableEq, Repr

/-- Observable calls made by one run of `sync`, in order.  `cleanUpCall`
stands for the TTL-expiry sweep `cleanUp` (`StorageManager.ts` lines
1347-1367); it is listed so that its absence from every sync trace can be
stated. -/
inductive SyncEffect where
  | uploadCall
  | downloadCall
  | markerSaveCall
  | clearOrphanedDataCall
  | cleanUpCall
deriving DecidableEq, Repr

/-- The environment of one `sync` run: the manager's data type and flags plus
one oracle per fallible collaborator call. -/
structure SyncEnv where
  dataType : String
  usePrivateData : Bool
  /-- `getLastUsedDeviceFromS3` (lines 2848-2914): either throws, or returns
  the normalized marker — `(none, none)` when the marker object is absent or
  either field is falsy, otherwise both fields present and truthy. -/
  markerFetch : Except String (Option String × Option Nat)
  /-- `getDeviceKey` (lines 2948-3043): throws or returns the device key. -/
  deviceKeyFetch : Except String String
  /-- `getPrivateDataLastUpdatedTime` (lines 151-187): total, `0` when no
  counter was ever written or the read fails. -/
  localLastUpdated : Nat
  /-- `uploadPrivateDataToS3` (lines 2454-2488): throws or succeeds. -/
  uploadOutcome : Except String Unit
  /-- `downloadPrivateDataFromS3` (lines 2395-2449). -/
  downloadOutcome : DownloadOutcome
  /-- `mergePrivateDataAndS3` (lines 2235-2318) as seen by its caller: the
  pre-`try` store read, the clear failure, and the `NoSuchKey`-branch upload
  may throw; everything else is caught internally. -/
  mergeOutcome : Except String Unit
  /-- `saveLastUsedDeviceToS3` (lines 2920-2942): throws or succeeds. -/
  markerSave : Except String Unit
deriving Repr

/-- `forceUploadToBackend` (`StorageManager.ts` lines 1866-1905): disabled
private data short-circuits; otherwise the upload either succeeds or the
error is caught and reported in a structured result. -/
def forceUploadToBackend (env : SyncEnv) : SyncResult :=
  if !env.usePrivateData then
    ⟨env.dataType, true, .noActionNeeded, "Private data operations are disabled", none⟩
  else
    match env.uploadOutcome with
    | .ok _ => ⟨env.dataType, true, .uploaded, "Local data uploaded to S3", none⟩
    | .error e => ⟨env.dataType, false, .noActionNeeded, "Error uploading to backend", some e⟩

/-- `forceDownloadFromBackend` (`StorageManager.ts` lines 1910-1956): on
`NoSuchKey` the catch block uploads instead (result ignored) and reports a
successful `uploaded` action; any other error is caught and reported. -/
def forceDownloadFromBackend (env : SyncEnv) : SyncResult :=
  if !env.usePrivateData then
    ⟨env.dataType, true, .noActionNeeded, "Private data operations are disabled", none⟩
  else
    match env.downloadOutcome with
    | .ok => ⟨env.dataType, true, .downloaded, "Data downloaded from S3", none⟩
    | .noSuchKey m =>
      ⟨env.dataType, true, .uploaded, "Error downloading from backend(NoSuchKey), uploaded to S3", some m⟩
    | .failed m =>
      ⟨env.dataType, false, .noActionNeeded, "Error downloading from backend", some m⟩

/-- `forceMergeWithBackend` (`StorageManager.ts` lines 1961-1995). -/
def forceMergeWithBackend (env : SyncEnv) : SyncResult :=
  if !env.usePrivateData then
    ⟨env.dataType, true, .noActionNeeded, "Private data operations are disabled", none⟩
  else
    match env.mergeOutcome with
    | .ok _ => ⟨env.dataType, true, .downloaded, "Data merged successfully", none⟩
    | .error e => ⟨env.dataType, false, .noActionNeeded, "Error merging with backend", some e⟩

/-- The `time_difference` computation of `sync` (`StorageManager.ts` lines
2116-2119): `s3LastUpdated && localLastUpdated ? Math.abs(...) : 0`.  Both
operands must be truthy (non-null and non-zero) for the absolute difference
to be computed; otherwise the difference is `0`. -/
def timeDifference (s3LastUpdated : Option Nat) (localLastUpdated : Nat) : Nat :=
  match s3LastUpdated with
  | some s =>
    if s ≠ 0 ∧ localLastUpdated ≠ 0 then max s localLastUpdated - min s localLastUpdated
    else 0
  | none => 0

/-- The guard `s3LastUpdated && s3LastUpdated > localLastUpdated` of
`StorageManager.ts` line 2132: the remote timestamp is truthy and strictly
greater than the local counter. -/
def s3StrictlyNewer (s3LastUpdated : Option Nat) (localLastUpdated : Nat) : Bool :=
  match s3LastUpdated with
  | some s => (s != 0) && decide (localLastUpdated < s)
  | none => false

/-- The `try` block of `sync` (`StorageManager.ts` lines 2094-2212): fetch the
remote marker and the local device key, then dispatch on the device-key
comparison.  The `if (s3DeviceKey && ...)` chain is transcribed by matching on
the marker first: a `null` or empty (falsy) remote device key falls through to
the upload branch.  Returns the pending result (or the thrown error, caught by
the modelled catch block of `sync`) together with the calls performed. -/
def syncAttempt (env : SyncEnv) : Except String SyncResult × List SyncEffect :=
  match env.markerFetch with
  | .error e => (.error e, [])
  | .ok (s3DeviceKey, s3LastUpdated) =>
    match env.deviceKeyFetch with
    | .error e => (.error e, [])
    | .ok localDeviceKey =>
      let localLastUpdated := env.localLastUpdated
      let time_difference := timeDifference s3LastUpdated localLastUpdated
      match s3DeviceKey with
      | some s3Key =>
        if s3Key = "" then
          -- falsy remote device key: both guarded branches skipped, upload
          let uploadResult := forceUploadToBackend env
          if uploadResult.success then
            match env.markerSave with
            | .ok _ =>
              (.ok ⟨env.dataType, uploadResult.success, uploadResult.action,
                "No S3 device key, uploading to S3: " ++ uploadResult.details, none⟩,
               [.uploadCall, .markerSaveCall])
            | .error e => (.error e, [.uploadCall, .markerSaveCall])
          else
            (.ok ⟨env.dataType, uploadResult.success, uploadResult.action,
              "No S3 device key, uploading to S3: " ++ uploadResult.details, none⟩,
             [.uploadCall])
        else if localDeviceKey = s3Key then
          if time_difference < 1000 then
            (.ok ⟨env.dataType, true, .noActionNeeded, "Device keys match, data is in sync", none⟩,
             [])
          else if s3StrictlyNewer s3LastUpdated localLastUpdated then
            let downloadResult := forceDownloadFromBackend env
            if downloadResult.success then
              match env.markerSave with
              | .ok _ =>
                (.ok ⟨env.dataType, downloadResult.success, downloadResult.action,
                  "Device keys match, local is older, downloading from S3: " ++ downloadResult.details, none⟩,
                 [.downloadCall, .markerSaveCall])
              | .error e => (.error e, [.downloadCall, .markerSaveCall])
            else
              (.ok ⟨env.dataType, downloadResult.success, downloadResult.action,
                "Device keys match, local is older, downloading from S3: " ++ downloadResult.details, none⟩,
               [.downloadCall])
          else
            let uploadResult := forceUploadToBackend env
            if uploadResult.success then
              match env.markerSave with
              | .ok _ =>
                (.ok ⟨env.dataType, uploadResult.success, uploadResult.action,
                  "Device keys match, local is newer, uploading to S3: " ++ uploadResult.details, none⟩,
                 [.uploadCall, .markerSaveCall])
              | .error e => (.error e, [.uploadCall, .markerSaveCall])
            else
              (.ok ⟨env.dataType, uploadResult.success, uploadResult.action,
                "Device keys match, local is newer, uploading to S3: " ++ uploadResult.details, none⟩,
               [.uploadCall])
        else
          let downloadResult := forceDownloadFromBackend env
          if downloadResult.success then
            match env.markerSave with
            | .ok _ =>
              (.ok ⟨env.dataType, downloadResult.success, downloadResult.action,
                "S3 has different device key, downloading from S3: " ++ downloadResult.details, none⟩,
               [.downloadCall, .markerSaveCall])
            | .error e => (.error e, [.downloadCall, .markerSaveCall])
          else
            (.ok ⟨env.dataType, downloadResult.success, downloadResult.action,
              "S3 has different device key, downloading from S3: " ++ downloadResult.details, none⟩,
             [.downloadCall])
      | none =>
        let uploadResult := forceUploadToBackend env
        if uploadResult.success then
          match env.markerSave with
          | .ok _ =>
            (.ok ⟨env.dataType, uploadResult.success, uploadResult.action,
              "No S3 device key, uploading to S3: " ++ uploadResult.details, none⟩,
             [.uploadCall, .markerSaveCall])
          | .error e => (.error e, [.uploadCall, .markerSaveCall])
        else
          (.ok ⟨env.dataType, uploadResult.success, uploadResult.action,
            "No S3 device key, uploading to S3: " ++ uploadResult.details, none⟩,
           [.uploadCall])

/-- `sync` (`StorageManager.ts` lines 2087-2229): the `try` body, the catch
block turning any thrown error into a structured failure result, and the
`finally` block which invokes `clearOrphanedData` — and only
`clearOrphanedData` — on every path. -/
def sync (env : SyncEnv) : SyncResult × List SyncEffect :=
  let attempt := syncAttempt env
  let result :=
    match attempt.1 with
    | .ok r => r
    | .error e =>
      ⟨env.dataType, false, .noActionNeeded, "Error syncing private data with backend", some e⟩
  (result, attempt.2 ++ [.clearOrphanedDataCall])

/-- `syncWithDebounce` (`StorageManager.ts` lines 2002-2057) as observed when
its timer fires: the disabled short-circuit, otherwise the result of `sync`
(which never throws, so the `catch` of the timer callback is unreachable). -/
def syncWithDebounceResult (env : SyncEnv) : SyncResult :=
  if !env.usePrivateData then
    ⟨env.dataType, true, .noActionNeeded, "This data type does not have private data", none⟩
  else (sync env).1

/-- The device-marker state machine of the specification, with the window
test amended to the code's `time_difference` (which is `0`, hence inside the
window, whenever either timestamp is zero or absent): absent remote marker
means upload; matching device keys mean no action inside the window, else
download when the remote `lastUpdated` is truthy and strictly greater, else
upload; a differing remote device key means download. -/
def specSyncDecision (s3DeviceKey : Option String) (s3LastUpdated : Option Nat)
    (localDeviceKey : String) (localLastUpdated : Nat) : SyncAction :=
  match s3DeviceKey with
  | none => .uploaded
  | some s3Key =>
    if localDeviceKey = s3Key then
      if timeDifference s3LastUpdated localLastUpdated < 1000 then .noActionNeeded
      else if s3StrictlyNewer s3LastUpdated localLastUpdated then .downloaded
      else .uploaded
    else .downloaded

/-- The operation attempted by a sync trace: download dominates (the two are
never both attempted), then upload, else nothing. -/
def attemptedOp (effects : List SyncEffect) : SyncAction :=
  if effects.contains .downloadCall then .downloaded
  else if effects.contains .uploadCall then .uploaded
  else .noActionNeeded

/-- The invariant `getLastUsedDeviceFromS3` establishes on the marker it
returns (`StorageManager.ts` lines 2885-2894): either both fields are `null`,
or both are present and truthy. -/
def markerNormalized (s3DeviceKey : Option String) (s3LastUpdated : Option Nat) : Prop :=
  (s3DeviceKey = none ∧ s3LastUpdated = none) ∨
    (∃ d u, s3DeviceKey = some d ∧ d ≠ "" ∧ s3LastUpdated = some u ∧ u ≠ 0)

/-- `env.uploadOutcome` succeeded (the `success` field `forceUploadToBackend`
reports with private data enabled). -/
def uploadSucceeds (env : SyncEnv) : Prop := ∃ u, env.uploadOutcome = .ok u

/-- `forceDownloadFromBackend` reports success with private data enabled:
a download that succeeded or hit the `NoSuchKey` fallback. -/
def downloadSucceeds (env : SyncEnv) : Prop :=
  ∀ m, env.downloadOutcome ≠ .failed m

/-! Debounce scheduler (`StorageManager.ts` lines 2018-2056).  One logical
timer per data type lives in the static `debounceTimers` map: each call to
`syncWithDebounce` clears the pending timer of its data type, then arms a new
one `delay` milliseconds ahead; a timer that fires runs `sync` once and
removes itself.  `runDebounce` replays a time-ordered list of trigger times
against the single slot for one data type and returns the times at which
`sync` actually runs: a pending timer is cancelled when the next trigger
arrives strictly before its deadline, and fires otherwise. -/
def runDebounce (delay : Nat) : Option Nat → List Nat → List Nat
  | pending, [] =>
    match pending with
    | some fireTime => [fireTime]
    | none => []
  | pending, t :: rest =>
    match pending with
    | some fireTime =>
      if fireTime ≤ t then fireTime :: runDebounce delay (some (t + delay)) rest
      else runDebounce delay (some (t + delay)) rest
    | none => runDebounce delay (some (t + delay)) rest

/-- A structured sync-family result: the `action` field carries one of the
three actions the public contract allows. -/
def structuredAction (r : SyncResult) : Prop :=
  r.action = SyncAction.uploaded ∨ r.action = SyncAction.downloaded ∨
    r.action = SyncAction.noActionNeeded

/-! Concrete inputs used by counterexamples, code-bug evaluations and
witnesses. -/

/-- Remote record for the tie counterexample: `lastModified = 100`, live. -/
def s3RecTie : PrivRecord :=
  ⟨"k1", "u", "", 0, 100, 0, some "remote-payload", "message", false⟩

/-- Local record for the tie counterexample: `lastModified = 100`, live,
different payload. -/
def localRecTie : PrivRecord :=
  ⟨"k1", "u", "", 0, 100, 0, some "local-payload", "message", false⟩

/-- Remote record for the idempotence failure: live, `lastModified = 100`. -/
def s3RecLive : PrivRecord :=
  ⟨"k1", "u", "", 0, 100, 0, some "remote-payload", "message", false⟩

/-- Local record for the idempotence failure: tombstoned, newer
(`lastModified = 200`). -/
def localRecTomb : PrivRecord :=
  ⟨"k1", "u", "", 0, 200, 0, some "local-payload", "message", true⟩

/-- A stored tombstoned record whose key is the derived private key of the
input `"k"` under user-id hash `"HH"` and path prefix `"private"`. -/
def recTombStored : PrivRecord :=
  ⟨"private/HH/k", "u", "", 0, 100, 0, some "x-payload", "message", true⟩

/-- A live stored record at the same derived key, used by the delete claim. -/
def recLiveStored : PrivRecord :=
  ⟨"private/HH/k", "u", "", 0, 100, 0, some "x-payload", "message", false⟩

/-- An orphaned record in a dataset (`conversation`) other than the manager's
(`message`): its `learnerId` is non-empty and no learner record exists. -/
def recOrphanOther : PrivRecord :=
  ⟨"private/HH/c1", "u", "L1", 0, 100, 0, some "c-payload", "conversation", false⟩

/-- An orphaned record in the manager's own dataset (`message`). -/
def recOrphanSame : PrivRecord :=
  ⟨"private/HH/m1", "u", "L1", 0, 100, 0, some "m-payload", "message", false⟩

/-- Sync environment for the window counterexample: the remote marker names
this very device with `lastUpdated = 5000`, while the local counter was never
written (`0`). -/
def envWindow : SyncEnv :=
  ⟨"message", true, .ok (some "device-1", some 5000), .ok "device-1", 0,
    .ok (), .ok, .ok (), .ok ()⟩

/-- Sync environment for the cleanup counterexample: no remote marker, so the
cycle uploads and refreshes the marker. -/
def envUploadCycle : SyncEnv :=
  ⟨"message", true, .ok (none, none), .ok "device-1", 4000,
    .ok (), .ok, .ok (), .ok ()⟩

end Storage

/-!
Theorems.  The first block develops a per-key characterization of the merge
engine; the later blocks settle the individual claims.
-/

namespace Storage

theorem mapGet_mapSet_self (m : JsMap) (k : String) (v : PrivRecord) :
    mapGet (mapSet m k v) k = some v := by
  induction m with
  | nil => simp [mapSet, mapGet]
  | cons kv rest ih =>
    cases h : kv.1 == k with
    | true => simp [mapSet, h, mapGet]
    | false => simp [mapSet, h, mapGet, ih]

theorem mapGet_mapSet_ne (m : JsMap) (k' k : String) (v : PrivRecord) (h : k' ≠ k) :
    mapGet (mapSet m k' v) k = mapGet m k := by
  induction m with
  | nil => simp [mapSet, mapGet, h]
  | cons kv rest ih =>
    cases h1 : kv.1 == k' with
    | true =>
      simp only [beq_iff_eq] at h1
      simp [mapSet, h1, mapGet, h]
    | false => simp [mapSet, h1, mapGet, ih]

theorem mapGet_mapDelete_ne (m : JsMap) (k' k : String) (h : k' ≠ k) :
    mapGet (mapDelete m k') k = mapGet m k := by
  induction m with
  | nil => simp [mapDelete]
  | cons kv rest ih =>
    cases h1 : kv.1 == k' with
    | true =>
      simp only [beq_iff_eq] at h1
      simp [mapDelete, h1, mapGet, h]
    | false => simp [mapDelete, h1, mapGet, ih]

theorem mapGet_eq_none_iff (m : JsMap) (k : String) :
    mapGet m k = none ↔ k ∉ m.map Prod.fst := by
  induction m with
  | nil => simp [mapGet]
  | cons kv rest ih =>
    cases h : kv.1 == k with
    | true =>
      simp only [beq_iff_eq] at h
      simp [mapGet, h]
    | false =>
      have h2 : kv.1 ≠ k := ne_of_beq_false h
      simp [mapGet, h, ih, Ne.symm h2]

theorem mem_keys_of_mapGet_some {m : JsMap} {k : String} {v : PrivRecord}
    (h : mapGet m k = some v) : k ∈ m.map Prod.fst := by
  by_contra hn
  rw [(mapGet_eq_none_iff m k).2 hn] at h
  exact Option.noConfusion h

theorem mapGet_mapDelete_self (m : JsMap) (k : String) (hm : uniqKeys m) :
    mapGet (mapDelete m k) k = none := by
  induction m with
  | nil => simp [mapDelete, mapGet]
  | cons kv rest ih =>
    simp only [uniqKeys, List.map_cons, List.nodup_cons] at hm
    cases h : kv.1 == k with
    | true =>
      simp only [beq_iff_eq] at h
      subst h
      simp only [mapDelete, beq_self_eq_true, if_true]
      exact (mapGet_eq_none_iff rest kv.1).2 hm.1
    | false => simp [mapDelete, h, mapGet, ih hm.2]

theorem mem_keys_mapSet {m : JsMap} {k x : String} {v : PrivRecord}
    (h : x ∈ (mapSet m k v).map Prod.fst) : x ∈ m.map Prod.fst ∨ x = k := by
  induction m with
  | nil =>
    simp only [mapSet, List.map_cons, List.map_nil, List.mem_cons, List.not_mem_nil,
      or_false] at h
    exact Or.inr h
  | cons kv rest ih =>
    cases h1 : kv.1 == k with
    | true =>
      simp only [mapSet, h1, if_true, List.map_cons, List.mem_cons] at h
      simp only [List.map_cons, List.mem_cons]
      rcases h with h | h
      · exact Or.inr h
      · exact Or.inl (Or.inr h)
    | false =>
      simp only [mapSet, h1, Bool.false_eq_true, if_false, List.map_cons, List.mem_cons] at h
      simp only [List.map_cons, List.mem_cons]
      rcases h with h | h
      · exact Or.inl (Or.inl h)
      · rcases ih h with h2 | h2
        · exact Or.inl (Or.inr h2)
        · exact Or.inr h2

theorem mem_keys_mapDelete {m : JsMap} {k x : String}
    (h : x ∈ (mapDelete m k).map Prod.fst) : x ∈ m.map Prod.fst := by
  induction m with
  | nil => simp [mapDelete] at h
  | cons kv rest ih =>
    simp only [List.map_cons, List.mem_cons]
    cases h1 : kv.1 == k with
    | true =>
      simp only [mapDelete, h1, if_true] at h
      exact Or.inr h
    | false =>
      simp only [mapDelete, h1, Bool.false_eq_true, if_false, List.map_cons, List.mem_cons] at h
      rcases h with h | h
      · exact Or.inl h
      · exact Or.inr (ih h)

theorem uniqKeys_mapSet {m : JsMap} (k : String) (v : PrivRecord) (hm : uniqKeys m) :
    uniqKeys (mapSet m k v) := by
  induction m with
  | nil => simp [mapSet, uniqKeys]
  | cons kv rest ih =>
    simp only [uniqKeys, List.map_cons, List.nodup_cons] at hm
    cases h1 : kv.1 == k with
    | true =>
      simp only [beq_iff_eq] at h1
      simp only [uniqKeys, mapSet, h1, beq_self_eq_true, if_true, List.map_cons,
        List.nodup_cons]
      exact ⟨h1 ▸ hm.1, hm.2⟩
    | false =>
      have h2 : kv.1 ≠ k := ne_of_beq_false h1
      simp only [uniqKeys, mapSet, h1, Bool.false_eq_true, if_false, List.map_cons,
        List.nodup_cons]
      refine ⟨fun hmem => ?_, ih hm.2⟩
      rcases mem_keys_mapSet hmem with h3 | h3
      · exact hm.1 h3
      · exact h2 h3

theorem uniqKeys_mapDelete {m : JsMap} (k : String) (hm : uniqKeys m) :
    uniqKeys (mapDelete m k) := by
  induction m with
  | nil => simp [mapDelete, uniqKeys]
  | cons kv rest ih =>
    simp only [uniqKeys, List.map_cons, List.nodup_cons] at hm
    cases h1 : kv.1 == k with
    | true => simpa [uniqKeys, mapDelete, h1] using hm.2
    | false =>
      simp only [uniqKeys, mapDelete, h1, Bool.false_eq_true, if_false, List.map_cons,
        List.nodup_cons]
      exact ⟨fun hmem => hm.1 (mem_keys_mapDelete hmem), ih hm.2⟩

theorem seed_get_none {S : JsMap} {k : String} (h : mapGet S k = none) (m0 : JsMap) :
    mapGet (S.foldl (fun m kv => mapSet m kv.1 kv.2) m0) k = mapGet m0 k := by
  induction S generalizing m0 with
  | nil => simp
  | cons kv rest ih =>
    cases h1 : kv.1 == k with
    | true => simp [mapGet, h1] at h
    | false =>
      have h2 : kv.1 ≠ k := ne_of_beq_false h1
      simp only [mapGet, h1, Bool.false_eq_true, if_false] at h
      simp only [List.foldl_cons]
      rw [ih h, mapGet_mapSet_ne _ _ _ _ h2]

theorem seed_get_some {S : JsMap} {k : String} {v : PrivRecord} (hS : uniqKeys S)
    (h : mapGet S k = some v) (m0 : JsMap) :
    mapGet (S.foldl (fun m kv => mapSet m kv.1 kv.2) m0) k = some v := by
  induction S generalizing m0 with
  | nil => simp [mapGet] at h
  | cons kv rest ih =>
    simp only [uniqKeys, List.map_cons, List.nodup_cons] at hS
    cases h1 : kv.1 == k with
    | true =>
      have h2 : kv.1 = k := by simpa using h1
      simp only [mapGet, h1, if_true, Option.some.injEq] at h
      subst h
      have hrest : mapGet rest k = none := (mapGet_eq_none_iff rest k).2 (h2 ▸ hS.1)
      simp only [List.foldl_cons]
      rw [seed_get_none hrest, h2, mapGet_mapSet_self]
    | false =>
      have h2 : kv.1 ≠ k := ne_of_beq_false h1
      simp only [mapGet, h1, Bool.false_eq_true, if_false] at h
      simp only [List.foldl_cons]
      exact ih hS.2 h _

theorem seed_uniq (S : JsMap) {m0 : JsMap} (h0 : uniqKeys m0) :
    uniqKeys (S.foldl (fun m kv => mapSet m kv.1 kv.2) m0) := by
  induction S generalizing m0 with
  | nil => simpa using h0
  | cons kv rest ih =>
    simp only [List.foldl_cons]
    exact ih (uniqKeys_mapSet _ _ h0)

end Storage


namespace Storage

theorem contains_iff_mem (l : List String) (x : String) :
    l.contains x = true ↔ x ∈ l := by
  induction l with
  | nil => simp
  | cons a rest ih => simp [List.contains_cons, ih]

theorem mergeLocalResolve_get_self (S m : JsMap) (k : String) (l : PrivRecord)
    (hm : uniqKeys m) :
    mapGet (mergeLocalResolve S m k l) k = mergeDecide S k l := by
  unfold mergeLocalResolve mergeDecide
  cases mapGet S k with
  | none =>
    by_cases hd : l.deleted <;>
      simp [hd, mapGet_mapSet_self, mapGet_mapDelete_self _ _ hm]
  | some s =>
    by_cases hgt : s.lastModified > l.lastModified <;>
      by_cases hd1 : s.deleted <;> by_cases hd2 : l.deleted <;>
        simp [hgt, hd1, hd2, mapGet_mapSet_self, mapGet_mapDelete_self _ _ hm]

theorem mergeLocalResolve_get_ne (S m : JsMap) (k' k : String) (l : PrivRecord)
    (h : k' ≠ k) :
    mapGet (mergeLocalResolve S m k' l) k = mapGet m k := by
  unfold mergeLocalResolve
  cases mapGet S k' with
  | none =>
    by_cases hd : l.deleted <;>
      simp [hd, mapGet_mapSet_ne _ _ _ _ h, mapGet_mapDelete_ne _ _ _ h]
  | some s =>
    by_cases hgt : s.lastModified > l.lastModified <;>
      by_cases hd1 : s.deleted <;> by_cases hd2 : l.deleted <;>
        simp [hgt, hd1, hd2, mapGet_mapSet_ne _ _ _ _ h, mapGet_mapDelete_ne _ _ _ h]

theorem mergeLocalResolve_uniq (S m : JsMap) (k : String) (l : PrivRecord)
    (hm : uniqKeys m) : uniqKeys (mergeLocalResolve S m k l) := by
  unfold mergeLocalResolve
  cases mapGet S k with
  | none =>
    by_cases hd : l.deleted <;> simp [hd, uniqKeys_mapSet, uniqKeys_mapDelete, hm]
  | some s =>
    by_cases hgt : s.lastModified > l.lastModified <;>
      by_cases hd1 : s.deleted <;> by_cases hd2 : l.deleted <;>
        simp [hgt, hd1, hd2, uniqKeys_mapSet, uniqKeys_mapDelete, hm]

theorem mergeS3Resolve_get_self (m : JsMap) (k : String) (s : PrivRecord)
    (hm : uniqKeys m) :
    mapGet (mergeS3Resolve m k s) k = if s.deleted then none else some s := by
  unfold mergeS3Resolve
  by_cases hd : s.deleted <;>
    simp [hd, mapGet_mapSet_self, mapGet_mapDelete_self _ _ hm]

theorem mergeS3Resolve_get_ne (m : JsMap) (k' k : String) (s : PrivRecord)
    (h : k' ≠ k) :
    mapGet (mergeS3Resolve m k' s) k = mapGet m k := by
  unfold mergeS3Resolve
  by_cases hd : s.deleted <;>
    simp [hd, mapGet_mapSet_ne _ _ _ _ h, mapGet_mapDelete_ne _ _ _ h]

theorem mergeS3Resolve_uniq (m : JsMap) (k : String) (s : PrivRecord)
    (hm : uniqKeys m) : uniqKeys (mergeS3Resolve m k s) := by
  unfold mergeS3Resolve
  by_cases hd : s.deleted <;> simp [hd, uniqKeys_mapSet, uniqKeys_mapDelete, hm]

theorem localFold_fst_mono (S : JsMap) (L : JsMap) :
    ∀ (st : List String × JsMap) {x : String}, x ∈ st.1 →
      x ∈ (L.foldl (mergeLocalStep S) st).1 := by
  induction L with
  | nil => intro st x h; simpa using h
  | cons kv rest ih =>
    intro st x h
    simp only [List.foldl_cons]
    apply ih
    unfold mergeLocalStep
    split
    · exact h
    · exact List.mem_cons_of_mem _ h

theorem localFold_fst_mem (S : JsMap) (L : JsMap) :
    ∀ (st : List String × JsMap) {kv : String × PrivRecord}, kv ∈ L →
      kv.1 ∈ (L.foldl (mergeLocalStep S) st).1 := by
  induction L with
  | nil => intro st kv h; simp at h
  | cons kv0 rest ih =>
    intro st kv h
    simp only [List.foldl_cons]
    rcases List.mem_cons.1 h with rfl | h
    · apply localFold_fst_mono
      unfold mergeLocalStep
      split
      · rename_i hc
        exact (contains_iff_mem _ _).1 hc
      · exact List.mem_cons_self _ _
    · exact ih _ h

theorem localFold_fst_bound (S : JsMap) (L : JsMap) :
    ∀ (st : List String × JsMap) {x : String},
      x ∈ (L.foldl (mergeLocalStep S) st).1 → x ∈ st.1 ∨ x ∈ L.map Prod.fst := by
  induction L with
  | nil => intro st x h; exact Or.inl (by simpa using h)
  | cons kv rest ih =>
    intro st x h
    simp only [List.foldl_cons] at h
    rcases ih _ h with h1 | h1
    · unfold mergeLocalStep at h1
      split at h1
      · exact Or.inl h1
      · rcases List.mem_cons.1 h1 with rfl | h2
        · exact Or.inr (by simp)
        · exact Or.inl h2
    · exact Or.inr (List.mem_cons_of_mem _ h1)

theorem localFold_frame (S : JsMap) (L : JsMap) :
    ∀ (st : List String × JsMap) {k : String}, (∀ kv ∈ L, kv.1 ≠ k) →
      mapGet (L.foldl (mergeLocalStep S) st).2 k = mapGet st.2 k := by
  induction L with
  | nil => intro st k _; simp
  | cons kv rest ih =>
    intro st k h
    simp only [List.foldl_cons]
    rw [ih _ (fun kv2 h2 => h kv2 (List.mem_cons_of_mem _ h2))]
    unfold mergeLocalStep
    split
    · rfl
    · exact mergeLocalResolve_get_ne _ _ _ _ _ (h kv (List.mem_cons_self _ _))

theorem localFold_uniq (S : JsMap) (L : JsMap) :
    ∀ (st : List String × JsMap), uniqKeys st.2 →
      uniqKeys (L.foldl (mergeLocalStep S) st).2 := by
  induction L with
  | nil => intro st hst; simpa using hst
  | cons kv rest ih =>
    intro st hst
    simp only [List.foldl_cons]
    apply ih
    unfold mergeLocalStep
    split
    · exact hst
    · exact mergeLocalResolve_uniq _ _ _ _ hst

theorem localFold_hit (S : JsMap) (L : JsMap) (hL : uniqKeys L) :
    ∀ (st : List String × JsMap) {k : String} {l : PrivRecord},
      uniqKeys st.2 → mapGet L k = some l → k ∉ st.1 →
      mapGet (L.foldl (mergeLocalStep S) st).2 k = mergeDecide S k l := by
  induction L with
  | nil => intro st k l _ hk _; simp [mapGet] at hk
  | cons kv rest ih =>
    simp only [uniqKeys, List.map_cons, List.nodup_cons] at hL
    intro st k l hst hk hres
    simp only [List.foldl_cons]
    cases h1 : kv.1 == k with
    | true =>
      have h2 : kv.1 = k := by simpa using h1
      simp only [mapGet, h1, if_true, Option.some.injEq] at hk
      subst hk
      have hnc : st.1.contains kv.1 = false := by
        rw [Bool.eq_false_iff]
        intro hc
        exact hres (h2 ▸ (contains_iff_mem _ _).1 hc)
      rw [localFold_frame S rest _
        (fun kv2 hkv2 hEq => (h2 ▸ hL.1) (hEq ▸ List.mem_map_of_mem Prod.fst hkv2))]
      unfold mergeLocalStep
      rw [hnc]
      simp only [Bool.false_eq_true, if_false]
      exact h2 ▸ mergeLocalResolve_get_self _ _ _ _ hst
    | false =>
      have h2 : kv.1 ≠ k := ne_of_beq_false h1
      simp only [mapGet, h1, Bool.false_eq_true, if_false] at hk
      refine ih hL.2 _ ?_ hk ?_
      · unfold mergeLocalStep
        split
        · exact hst
        · exact mergeLocalResolve_uniq _ _ _ _ hst
      · unfold mergeLocalStep
        split
        · exact hres
        · intro hmem
          rcases List.mem_cons.1 hmem with rfl | h3
          · exact h2 rfl
          · exact hres h3

theorem s3Fold_skip (S : JsMap) :
    ∀ (st : List String × JsMap) {k : String}, k ∈ st.1 →
      mapGet (S.foldl mergeS3Step st).2 k = mapGet st.2 k := by
  induction S with
  | nil => intro st k _; simp
  | cons kv rest ih =>
    intro st k h
    simp only [List.foldl_cons]
    have hstep : mapGet (mergeS3Step st kv).2 k = mapGet st.2 k := by
      unfold mergeS3Step
      split
      · rfl
      · rename_i hc
        have hne : kv.1 ≠ k := by
          intro hEq
          exact hc (hEq ▸ (contains_iff_mem _ _).2 h)
        exact mergeS3Resolve_get_ne _ _ _ _ hne
    have hmem : k ∈ (mergeS3Step st kv).1 := by
      unfold mergeS3Step
      split
      · exact h
      · exact List.mem_cons_of_mem _ h
    rw [ih _ hmem, hstep]

theorem s3Fold_frame (S : JsMap) :
    ∀ (st : List String × JsMap) {k : String}, (∀ kv ∈ S, kv.1 ≠ k) →
      mapGet (S.foldl mergeS3Step st).2 k = mapGet st.2 k := by
  induction S with
  | nil => intro st k _; simp
  | cons kv rest ih =>
    intro st k h
    simp only [List.foldl_cons]
    rw [ih _ (fun kv2 h2 => h kv2 (List.mem_cons_of_mem _ h2))]
    unfold mergeS3Step
    split
    · rfl
    · exact mergeS3Resolve_get_ne _ _ _ _ (h kv (List.mem_cons_self _ _))

theorem s3Fold_hit (S : JsMap) (hS : uniqKeys S) :
    ∀ (st : List String × JsMap) {k : String} {s : PrivRecord},
      uniqKeys st.2 → mapGet S k = some s → k ∉ st.1 →
      mapGet (S.foldl mergeS3Step st).2 k = if s.deleted then none else some s := by
  induction S with
  | nil => intro st k s _ hk _; simp [mapGet] at hk
  | cons kv rest ih =>
    simp only [uniqKeys, List.map_cons, List.nodup_cons] at hS
    intro st k s hst hk hres
    simp only [List.foldl_cons]
    cases h1 : kv.1 == k with
    | true =>
      have h2 : kv.1 = k := by simpa using h1
      simp only [mapGet, h1, if_true, Option.some.injEq] at hk
      subst hk
      have hnc : st.1.contains kv.1 = false := by
        rw [Bool.eq_false_iff]
        intro hc
        exact hres (h2 ▸ (contains_iff_mem _ _).1 hc)
      rw [s3Fold_frame rest _
        (fun kv2 hkv2 hEq => (h2 ▸ hS.1) (hEq ▸ List.mem_map_of_mem Prod.fst hkv2))]
      unfold mergeS3Step
      rw [hnc]
      simp only [Bool.false_eq_true, if_false]
      exact h2 ▸ mergeS3Resolve_get_self _ _ _ hst
    | false =>
      have h2 : kv.1 ≠ k := ne_of_beq_false h1
      simp only [mapGet, h1, Bool.false_eq_true, if_false] at hk
      refine ih hS.2 _ ?_ hk ?_
      · unfold mergeS3Step
        split
        · exact hst
        · exact mergeS3Resolve_uniq _ _ _ hst
      · unfold mergeS3Step
        split
        · exact hres
        · intro hmem
          rcases List.mem_cons.1 hmem with rfl | h3
          · exact h2 rfl
          · exact hres h3

/-- Per-key characterization of the merge engine: for maps with unique keys
(as every JS `Map` has), the merged map holds, at each key, the local-side
resolution `mergeDecide` when the key is local, the remote record (unless
tombstoned) when the key is remote-only, and nothing otherwise. -/
theorem mergeData_mapGet (S L : JsMap) (hS : uniqKeys S) (hL : uniqKeys L)
    (k : String) :
    mapGet (mergeData S L) k =
      match mapGet L k with
      | some l => mergeDecide S k l
      | none =>
        match mapGet S k with
        | some s => if s.deleted then none else some s
        | none => none := by
  unfold mergeData
  have hseedU : uniqKeys (S.foldl (fun m kv => mapSet m kv.1 kv.2) []) :=
    seed_uniq S (by simp [uniqKeys])
  cases hlk : mapGet L k with
  | some l =>
    have h1 : mapGet (L.foldl (mergeLocalStep S)
        ([], S.foldl (fun m kv => mapSet m kv.1 kv.2) [])).2 k = mergeDecide S k l :=
      localFold_hit S L hL _ hseedU hlk (by simp)
    have hkL : k ∈ L.map Prod.fst := mem_keys_of_mapGet_some hlk
    rcases List.mem_map.1 hkL with ⟨kv, hkv, hfst⟩
    have h2 : k ∈ (L.foldl (mergeLocalStep S)
        ([], S.foldl (fun m kv => mapSet m kv.1 kv.2) [])).1 :=
      hfst ▸ localFold_fst_mem S L _ hkv
    rw [s3Fold_skip S _ h2, h1]
  | none =>
    have hframe : ∀ kv ∈ L, kv.1 ≠ k := by
      intro kv hkv hEq
      exact ((mapGet_eq_none_iff L k).1 hlk) (hEq ▸ List.mem_map_of_mem Prod.fst hkv)
    have h1 : mapGet (L.foldl (mergeLocalStep S)
        ([], S.foldl (fun m kv => mapSet m kv.1 kv.2) [])).2 k =
        mapGet (S.foldl (fun m kv => mapSet m kv.1 kv.2) []) k :=
      localFold_frame S L _ hframe
    cases hsk : mapGet S k with
    | some s =>
      have hnotres : k ∉ (L.foldl (mergeLocalStep S)
          ([], S.foldl (fun m kv => mapSet m kv.1 kv.2) [])).1 := by
        intro hmem
        rcases localFold_fst_bound S L _ hmem with h2 | h2
        · simp at h2
        · exact ((mapGet_eq_none_iff L k).1 hlk) h2
      have hUafter : uniqKeys (L.foldl (mergeLocalStep S)
          ([], S.foldl (fun m kv => mapSet m kv.1 kv.2) [])).2 :=
        localFold_uniq S L _ hseedU
      rw [s3Fold_hit S hS _ hUafter hsk hnotres]
    | none =>
      have hSframe : ∀ kv ∈ S, kv.1 ≠ k := by
        intro kv hkv hEq
        exact ((mapGet_eq_none_iff S k).1 hsk) (hEq ▸ List.mem_map_of_mem Prod.fst hkv)
      rw [s3Fold_frame S _ hSframe, h1, seed_get_none hsk]
      simp [mapGet]

end Storage

namespace Storage

/-! Claim C1 (tie-breaking of the merge engine). -/

/-- Claim C1, counterexample: with equal `lastModified` timestamps (100/100)
and differing payloads, `mergeData` returns the local record, not the remote
one — refuting the claim that the remote (S3) record wins exact ties. -/
theorem mergeData_tie_remote_loses :
    mapGet (mergeData [("k1", s3RecTie)] [("k1", localRecTie)]) "k1" = some localRecTie ∧
    localRecTie ≠ s3RecTie ∧
    s3RecTie.lastModified = localRecTie.lastModified := by decide

/-- Claim C1, amended: for every key held by both the remote snapshot map and
the local map (maps with unique keys, as JS `Map`s are), `mergeData` resolves
the key to the record whose `lastModified` is strictly greater, and on an
exact tie the local record wins; the winner is present in the merged map
exactly when it is not tombstoned. -/
theorem mergeData_lww (S L : JsMap) (k : String) (s l : PrivRecord)
    (hS : uniqKeys S) (hL : uniqKeys L)
    (hs : mapGet S k = some s) (hl : mapGet L k = some l) :
    mapGet (mergeData S L) k =
      if s.lastModified > l.lastModified then (if s.deleted then none else some s)
      else (if l.deleted then none else some l) := by
  rw [mergeData_mapGet S L hS hL k]
  simp only [hl, mergeDecide, hs]

/-- Claim C1, witness: the amended theorem applied to the concrete tie —
timestamps 100/100, so the local record is the merge result. -/
theorem mergeData_lww_witness :
    mapGet (mergeData [("k1", s3RecTie)] [("k1", localRecTie)]) "k1" =
      some localRecTie := by
  rw [mergeData_lww [("k1", s3RecTie)] [("k1", localRecTie)] "k1" s3RecTie localRecTie
    (by simp [uniqKeys]) (by simp [uniqKeys]) (by decide) (by decide)]
  decide

/-! Claim C2 (idempotence of the merge engine). -/

/-- Claim C2: the merge is NOT idempotent, refuting the required law
`merge(S, merge(S, L)) == merge(S, L)`.  With a live remote record and a
newer local tombstone, the first merge drops the key entirely, and re-merging
the result with the same snapshot resurrects the remote record. -/
theorem mergeData_not_idempotent :
    mergeData [("k1", s3RecLive)] (mergeData [("k1", s3RecLive)] [("k1", localRecTomb)]) ≠
      mergeData [("k1", s3RecLive)] [("k1", localRecTomb)] ∧
    mergeData [("k1", s3RecLive)] [("k1", localRecTomb)] = [] ∧
    mapGet (mergeData [("k1", s3RecLive)]
      (mergeData [("k1", s3RecLive)] [("k1", localRecTomb)])) "k1" = some s3RecLive ∧
    localRecTomb.deleted = true ∧
    s3RecLive.lastModified ≤ localRecTomb.lastModified := by decide

/-! Claim C4 (tombstones and the read operations). -/

/-- Claim C4: a stored tombstoned record IS returned as present data —
`readPrivateDataByKey` returns its payload and `getAllPrivateData` lists it,
because neither read consults the `deleted` flag; this contradicts the
tombstone invariant of the specification (which the sibling `getAllItems`
enforces at line 1834 of the source). -/
theorem tombstone_read_leak :
    recTombStored.deleted = true ∧
    readPrivateDataByKey true "private" "HH" [recTombStored] "k" = some "x-payload" ∧
    getAllPrivateData true [recTombStored] "u" "message" = ["x-payload"] := by decide

/-! Claim C6 (scope of the orphan-cleanup sweep). -/

/-- Claim C6: the orphan sweep is scoped to the manager's own dataset, not to
all datasets.  An orphaned record of dataset `conversation` (non-empty
`learnerId` `L1`, no learner records at all) survives `clearOrphanedData`
run by a `message` manager, while an otherwise-identical orphan inside the
`message` dataset is deleted. -/
theorem clearOrphanedData_dataset_scoped :
    clearOrphanedData [recOrphanOther] "u" "message" = [recOrphanOther] ∧
    recOrphanOther.learnerId ≠ "" ∧
    recOrphanOther.dataType ≠ LEARNER_DATA_TYPE ∧
    recOrphanOther.dataType ≠ "message" ∧
    getAllPrivateLearnerIndexedDBData [recOrphanOther] "u" = [] ∧
    clearOrphanedData [recOrphanSame] "u" "message" = [] := by decide

/-! Claim C7 (logical delete of a private record). -/

/-- Claim C7: `deleteDataById` on a private record performs a PHYSICAL
delete, not a soft delete — after the call the store holds no record at the
derived key at all (in particular no record with `deleted = true`),
contradicting the claimed tombstone lifecycle. -/
theorem deleteDataById_hard_delete :
    deleteDataById true "private" "HH" [recLiveStored] "k" = [] ∧
    readPrivateIndexedDBData (deleteDataById true "private" "HH" [recLiveStored] "k")
      "private/HH/k" = none := by decide

/-! Claim C9 (debounce coalescing). -/

/-- Claim C9: a burst of triggers, each arriving (weakly monotonically and)
strictly within `delay` of the previous one, produces exactly one sync
invocation, and it runs at the last trigger time plus `delay` — no earlier
than `delay` after the last trigger.  Each arriving trigger cancels the
pending timer (the `else` branch of `runDebounce`) before arming its own. -/
theorem syncWithDebounce_coalesce (delay t0 : Nat) (ts : List Nat)
    (hburst : List.Chain (fun a b => a ≤ b ∧ b < a + delay) t0 ts) :
    runDebounce delay none (t0 :: ts) = [ts.getLastD t0 + delay] := by
  induction ts generalizing t0 with
  | nil => simp [runDebounce]
  | cons t1 rest ih =>
    rcases List.chain_cons.1 hburst with ⟨⟨_, h2⟩, hchain⟩
    have hlt : ¬ t0 + delay ≤ t1 := by omega
    have hih := ih t1 hchain
    rw [List.getLastD_cons]
    calc runDebounce delay none (t0 :: t1 :: rest)
        = runDebounce delay (some (t1 + delay)) rest := by
          simp only [runDebounce]
          rw [if_neg hlt]
      _ = runDebounce delay none (t1 :: rest) := by simp only [runDebounce]
      _ = [rest.getLastD t1 + delay] := hih

/-- Claim C9, witness: three triggers at 0, 300 and 600 ms with a 1000 ms
debounce yield exactly one sync invocation, at 1600 ms. -/
theorem syncWithDebounce_coalesce_witness :
    runDebounce 1000 none [0, 300, 600] = [1600] := by
  simpa using syncWithDebounce_coalesce 1000 0 [300, 600]
    (by simp [List.chain_cons])

/-! Claim C10 (idempotence of private key derivation on strings). -/

theorem splitOnSlash_ne_nil (l : List Char) : splitOnSlash l ≠ [] := by
  cases l with
  | nil => simp [splitOnSlash]
  | cons c cs =>
    unfold splitOnSlash
    by_cases hc : c = '/'
    · simp [hc]
    · simp only [hc, if_false]
      cases splitOnSlash cs with
      | nil => simp
      | cons g gs => simp

theorem splitOnSlash_no_slash (l : List Char) (h : '/' ∉ l) : splitOnSlash l = [l] := by
  induction l with
  | nil => rfl
  | cons c cs ih =>
    have hc : c ≠ '/' := fun hEq => h (by simp [hEq])
    have hcs : '/' ∉ cs := fun hm => h (List.mem_cons_of_mem _ hm)
    unfold splitOnSlash
    rw [ih hcs]
    simp [hc]

theorem two_le_splitOnSlash_length (l : List Char) (h : '/' ∈ l) :
    2 ≤ (splitOnSlash l).length := by
  induction l with
  | nil => simp at h
  | cons c cs ih =>
    unfold splitOnSlash
    by_cases hc : c = '/'
    · simp only [hc, if_true, List.length_cons]
      have h1 : 1 ≤ (splitOnSlash cs).length :=
        List.length_pos.2 (splitOnSlash_ne_nil cs)
      omega
    · have hcs : '/' ∈ cs := by
        rcases List.mem_cons.1 h with h1 | h1
        · exact absurd h1.symm hc
        · exact h1
      have := ih hcs
      simp only [hc, if_false]
      cases hr : splitOnSlash cs with
      | nil => exact absurd hr (splitOnSlash_ne_nil cs)
      | cons g gs =>
        rw [hr] at this
        simpa using this

theorem getLastD_irrel {α : Type} (a : α) (t : List α) (d1 d2 : α) :
    (a :: t).getLastD d1 = (a :: t).getLastD d2 := by
  rw [List.getLastD_cons, List.getLastD_cons]

theorem slash_not_mem_getLastD (l : List Char) :
    '/' ∉ (splitOnSlash l).getLastD [] := by
  induction l with
  | nil => simp [splitOnSlash]
  | cons c cs ih =>
    unfold splitOnSlash
    by_cases hc : c = '/'
    · simp only [hc, if_true]
      rw [List.getLastD_cons]
      exact ih
    · simp only [hc, if_false]
      cases hr : splitOnSlash cs with
      | nil => exact absurd hr (splitOnSlash_ne_nil cs)
      | cons g gs =>
        rw [hr] at ih
        cases gs with
        | nil =>
          simp only [List.getLastD_cons, List.getLastD_nil] at ih ⊢
          intro hmem
          rcases List.mem_cons.1 hmem with h1 | h1
          · exact hc h1.symm
          · exact ih h1
        | cons g2 gs2 =>
          rw [List.getLastD_cons, getLastD_irrel g2 gs2 (c :: g) g]
          rw [List.getLastD_cons] at ih
          exact ih

theorem splitOnSlash_append_slash (a x : List Char) (hx : '/' ∉ x) :
    (splitOnSlash (a ++ '/' :: x)).getLastD [] = x := by
  induction a with
  | nil =>
    simp only [List.nil_append]
    unfold splitOnSlash
    rw [if_pos rfl, splitOnSlash_no_slash x hx]
    simp [List.getLastD_cons]
  | cons c a ih =>
    simp only [List.cons_append]
    unfold splitOnSlash
    by_cases hc : c = '/'
    · simp only [hc, if_true]
      rw [List.getLastD_cons]
      exact ih
    · simp only [hc, if_false]
      cases hr : splitOnSlash (a ++ '/' :: x) with
      | nil => exact absurd hr (splitOnSlash_ne_nil _)
      | cons g gs =>
        have hlen : 2 ≤ (splitOnSlash (a ++ '/' :: x)).length :=
          two_le_splitOnSlash_length _ (by simp)
        rw [hr] at hlen ih
        cases gs with
        | nil => simp at hlen
        | cons g2 gs2 =>
          rw [List.getLastD_cons, getLastD_irrel g2 gs2 (c :: g) g]
          rw [List.getLastD_cons] at ih
          exact ih

theorem getInputId_no_slash (input : String) : '/' ∉ (getInputId input).data := by
  unfold getInputId
  exact slash_not_mem_getLastD input.data

theorem getInputId_getPrivateKeyCore (p h input : String) :
    getInputId (getPrivateKeyCore p h input) = getInputId input := by
  have hx : '/' ∉ (getInputId input).data := getInputId_no_slash input
  have hslash : ("/" : String).data = ['/'] := rfl
  have hdata : (getPrivateKeyCore p h input).data
      = (p.data ++ '/' :: h.data) ++ '/' :: (getInputId input).data := by
    simp [getPrivateKeyCore, String.data_append, hslash]
  conv_lhs => rw [getInputId, hdata, splitOnSlash_append_slash _ _ hx]

theorem getPrivateKeyCore_idem (p h input : String) :
    getPrivateKeyCore p h (getPrivateKeyCore p h input) = getPrivateKeyCore p h input := by
  calc getPrivateKeyCore p h (getPrivateKeyCore p h input)
      = p ++ "/" ++ h ++ "/" ++ getInputId (getPrivateKeyCore p h input) := rfl
    _ = p ++ "/" ++ h ++ "/" ++ getInputId input := by
        rw [getInputId_getPrivateKeyCore]
    _ = getPrivateKeyCore p h input := rfl

/-- Claim C10: private key derivation is idempotent on string inputs.  With a
non-empty user id, if `getPrivateKey` maps `input` to `output`, then it maps
`output` to itself: `getInputId` keeps only the segment after the last slash,
so re-prefixing an already fully derived key is the identity. -/
theorem getPrivateKey_idempotent (userId : String) (sha256hex : String → String)
    (s3PrivatePre : String) (input output : String) (huser : userId ≠ "")
    (h : getPrivateKey userId sha256hex s3PrivatePre input = some output) :
    getPrivateKey userId sha256hex s3PrivatePre output = some output := by
  unfold getPrivateKey at h ⊢
  rw [if_neg huser] at h ⊢
  simp only [Option.some.injEq] at h
  subst h
  rw [getPrivateKeyCore_idem]

/-- Claim C10, witness: deriving from the raw input `a/b` gives
`private/HH/b`, and deriving again from that already-derived key gives the
same key back. -/
theorem getPrivateKey_idempotent_witness :
    getPrivateKey "u" (fun _ => "HH") "private" "private/HH/b" =
      some "private/HH/b" :=
  getPrivateKey_idempotent "u" (fun _ => "HH") "private" "a/b" "private/HH/b"
    (by decide) (by decide)

end Storage

namespace Storage

/-! Claim C5 (what runs in the finally block of sync). -/

theorem syncAttempt_effects (env : SyncEnv) :
    ∀ e ∈ (syncAttempt env).2,
      e = SyncEffect.uploadCall ∨ e = SyncEffect.downloadCall ∨
        e = SyncEffect.markerSaveCall := by
  rcases hmf : env.markerFetch with e0 | p
  · simp [syncAttempt, hmf]
  · obtain ⟨dk, lu⟩ := p
    rcases hdf : env.deviceKeyFetch with e1 | ldk
    · simp [syncAttempt, hmf, hdf]
    · rcases hms : env.markerSave with e2 | u2 <;>
        rcases dk with _ | s3Key <;>
          simp only [syncAttempt, hmf, hdf, hms] <;>
            split_ifs <;> simp

/-- Claim C5, counterexample: a full successful sync cycle performs the
upload, the marker refresh, and then exactly one garbage-collection call —
`clearOrphanedData` — in the `finally` block; the TTL-expiry sweep
(`cleanUp`) is not invoked, refuting the claim that both sweeps run after
every sync cycle. -/
theorem sync_cleanup_no_ttl_sweep :
    (sync envUploadCycle).2 =
      [SyncEffect.uploadCall, SyncEffect.markerSaveCall,
        SyncEffect.clearOrphanedDataCall] ∧
    SyncEffect.cleanUpCall ∉ (sync envUploadCycle).2 ∧
    (sync envUploadCycle).1.success = true := by decide

/-- Claim C5, amended: on every path through `sync` — every outcome of the
marker fetch, the device-key read, the upload, the download, and the marker
save — the trace ends with the orphan-cleanup call (the `finally` block), and
the TTL-expiry sweep `cleanUp` is never invoked by `sync`. -/
theorem sync_finally_orphan_cleanup_only (env : SyncEnv) :
    (sync env).2.getLast? = some SyncEffect.clearOrphanedDataCall ∧
    SyncEffect.cleanUpCall ∉ (sync env).2 := by
  constructor
  · show ((syncAttempt env).2 ++ [SyncEffect.clearOrphanedDataCall]).getLast? = _
    exact List.getLast?_concat _
  · show SyncEffect.cleanUpCall ∉
      (syncAttempt env).2 ++ [SyncEffect.clearOrphanedDataCall]
    intro hmem
    rcases List.mem_append.1 hmem with h | h
    · rcases syncAttempt_effects env _ h with h1 | h1 | h1 <;> simp at h1
    · simp at h

/-! Claim C8 (sync-family operations settle with structured results). -/

/-- Claim C8: every sync-family operation — `sync`, the debounced sync,
`forceUploadToBackend`, `forceDownloadFromBackend`, `forceMergeWithBackend` —
is a total function of its environment (every fallible collaborator call is
an `Except` oracle and every `error` is caught), settling with a structured
result whose `action` is `uploaded`, `downloaded` or `no_action_needed`; and
when the `try` body of `sync` throws, the catch block converts the error into
the structured failure result rather than re-raising it. -/
theorem sync_family_structured (env : SyncEnv) :
    structuredAction (sync env).1 ∧
    structuredAction (syncWithDebounceResult env) ∧
    structuredAction (forceUploadToBackend env) ∧
    structuredAction (forceDownloadFromBackend env) ∧
    structuredAction (forceMergeWithBackend env) ∧
    (∀ e, (syncAttempt env).1 = Except.error e →
      (sync env).1 = ⟨env.dataType, false, SyncAction.noActionNeeded,
        "Error syncing private data with backend", some e⟩) := by
  have hP : ∀ r : SyncResult, structuredAction r := by
    intro r
    unfold structuredAction
    cases h : r.action <;> simp
  refine ⟨hP _, hP _, hP _, hP _, hP _, ?_⟩
  intro e h
  show (match (syncAttempt env).1 with
    | .ok r => r
    | .error e =>
      (⟨env.dataType, false, .noActionNeeded,
        "Error syncing private data with backend", some e⟩ : SyncResult)) = _
  rw [h]

end Storage

namespace Storage

/-! Claim C3 (the device-marker state machine of sync). -/

/-- Claim C3, counterexample: the remote marker names this very device with
`lastUpdated = 5000` while the local counter is `0`; the true timestamp gap
(5000 ms) is far outside the 1000 ms window and the remote side is strictly
newer, so the claimed state machine requires a download — but `sync` computes
`time_difference = 0` (the `&&`-guard short-circuits on the falsy local
counter) and returns `no_action_needed` without downloading. -/
theorem sync_window_counterexample :
    (sync envWindow).1.action = SyncAction.noActionNeeded ∧
    SyncEffect.downloadCall ∉ (sync envWindow).2 ∧
    SyncEffect.uploadCall ∉ (sync envWindow).2 ∧
    envWindow.localLastUpdated < 5000 ∧
    ¬ (max 5000 envWindow.localLastUpdated - min 5000 envWindow.localLastUpdated
        < 1000) := by decide

/-- Claim C3, amended: the sync decision procedure follows the device-marker
state machine with the in-sync window taken to be the code's
`time_difference` — which is `0` (hence inside the window) whenever either
timestamp is zero or absent.  For every environment whose marker fetch and
device-key read succeed with a normalized marker: (1) an absent remote device
key leads to an upload, with the marker written when the upload succeeds;
(2) a matching device key inside the window leads to `no_action_needed` with
neither transfer nor marker write; (3) a matching device key outside the
window with the remote `lastUpdated` strictly greater leads to a download,
with the marker refreshed when the download reports success; (4) a differing
present remote device key leads to a download, with the marker refreshed when
the download reports success. -/
theorem sync_device_marker_machine (env : SyncEnv) (dk : Option String)
    (lu : Option Nat) (ldk : String)
    (hpriv : env.usePrivateData = true)
    (hfetch : env.markerFetch = Except.ok (dk, lu))
    (hdev : env.deviceKeyFetch = Except.ok ldk)
    (hnorm : markerNormalized dk lu) :
    (dk = none →
      attemptedOp (sync env).2 = SyncAction.uploaded ∧
      (uploadSucceeds env → SyncEffect.markerSaveCall ∈ (sync env).2)) ∧
    (∀ s3Key, dk = some s3Key → ldk = s3Key →
      timeDifference lu env.localLastUpdated < 1000 →
      (sync env).1.action = SyncAction.noActionNeeded ∧
      attemptedOp (sync env).2 = SyncAction.noActionNeeded ∧
      SyncEffect.markerSaveCall ∉ (sync env).2) ∧
    (∀ s3Key s, dk = some s3Key → ldk = s3Key → lu = some s →
      ¬ timeDifference lu env.localLastUpdated < 1000 →
      env.localLastUpdated < s →
      attemptedOp (sync env).2 = SyncAction.downloaded ∧
      (downloadSucceeds env → SyncEffect.markerSaveCall ∈ (sync env).2)) ∧
    (∀ s3Key, dk = some s3Key → ldk ≠ s3Key →
      attemptedOp (sync env).2 = SyncAction.downloaded ∧
      (downloadSucceeds env → SyncEffect.markerSaveCall ∈ (sync env).2)) := by
  refine ⟨?_, ?_, ?_, ?_⟩
  · -- (1) no remote device key: the final upload branch
    rintro rfl
    rcases hu : env.uploadOutcome with eu | uu <;>
      rcases hms : env.markerSave with ems | ums <;>
        simp [sync, syncAttempt, hfetch, hdev, forceUploadToBackend, hpriv, hu, hms,
          attemptedOp, uploadSucceeds]
  · -- (2) matching key inside the window
    rintro s3Key rfl rfl hwin
    obtain ⟨hdk, -⟩ | ⟨d, u, hdk, hne, hlu, hu0⟩ := hnorm
    · exact absurd hdk (by simp)
    obtain rfl : ldk = d := by simpa using hdk
    simp [sync, syncAttempt, hfetch, hdev, hne, hwin, attemptedOp]
  · -- (3) matching key outside the window, remote strictly newer
    rintro s3Key s rfl rfl rfl hwin hlt
    obtain ⟨hdk, -⟩ | ⟨d, u, hdk, hne, hlu, hu0⟩ := hnorm
    · exact absurd hdk (by simp)
    obtain rfl : ldk = d := by simpa using hdk
    obtain rfl : s = u := by simpa using hlu
    have hnew : s3StrictlyNewer (some s) env.localLastUpdated = true := by
      simp [s3StrictlyNewer, hu0, hlt]
    rcases hd : env.downloadOutcome with _ | m | m <;>
      rcases hms : env.markerSave with ems | ums <;>
        simp [sync, syncAttempt, hfetch, hdev, hne, hwin, hnew,
          forceDownloadFromBackend, hpriv, hd, hms, attemptedOp, downloadSucceeds]
  · -- (4) differing present remote device key
    rintro s3Key rfl hneq
    obtain ⟨hdk, -⟩ | ⟨d, u, hdk, hne, hlu, hu0⟩ := hnorm
    · exact absurd hdk (by simp)
    obtain rfl : s3Key = d := by simpa using hdk
    rcases hd : env.downloadOutcome with _ | m | m <;>
      rcases hms : env.markerSave with ems | ums <;>
        simp [sync, syncAttempt, hfetch, hdev, hne, hneq,
          forceDownloadFromBackend, hpriv, hd, hms, attemptedOp, downloadSucceeds]

/-- Claim C3, witness: the amended state machine applied to a concrete
environment with no remote marker: the cycle uploads and, the upload having
succeeded, refreshes the marker. -/
theorem sync_device_marker_machine_witness :
    attemptedOp (sync envUploadCycle).2 = SyncAction.uploaded ∧
    SyncEffect.markerSaveCall ∈ (sync envUploadCycle).2 := by
  have h := (sync_device_marker_machine envUploadCycle none none "device-1"
    rfl rfl rfl (Or.inl ⟨rfl, rfl⟩)).1 rfl
  exact ⟨h.1, h.2 ⟨(), rfl⟩⟩

end Storage
